import Mathlib

/-!
GrGLeo/ctf: client replica and server flag entity

A shallow embedding of
* `client/model/game.go`: the client model, `GameModel.Update`, the clock part
  of `GameModel.View`, and `ApplyDeltas`;
* `server/game/items.go`: `Flag` with `Move`, `SetBase`, `ResetPos`, `GetBase`,
  `IsSafe`.

Conventions.
* Go `int` values that are only stored and compared are `Int`.
* `time.Duration` is an `Int` number of nanoseconds; where the code does
  arithmetic on it the 64-bit wrap-around is explicit (`wrapInt64`).
* A Go runtime panic (index out of range) is the result `none`.
* A finite `float64` is the rational number it denotes; every `float64`
  operation is the exact operation followed by IEEE 754 binary64 rounding to
  nearest, ties to even (`roundF64`).
* The fixed-size array `[21][51]int` is a total function on `Fin 21` and
  `Fin 51`.
-/

namespace Client

/-! ## The replica board, `[21][51]int` -/

/-- The Go type `[21][51]int`: 21 rows of 51 columns; `b r c` is `b[r][c]`. -/
abbrev Board := Fin 21 → Fin 51 → Int

/-- One entry of `deltas [][3]int`: `delta[0]`, `delta[1]`, `delta[2]`. -/
structure Delta where
  x : Int
  y : Int
  value : Int
deriving DecidableEq, Repr

/-- Go index check for an array of length `n`: the index as a `Fin n`, or
`none` where the runtime panics with index out of range. -/
def index (n : Nat) (i : Int) : Option (Fin n) :=
  if h : 0 ≤ i ∧ i < (n : Int) then
    some ⟨i.toNat, by omega⟩
  else
    none

/-- The array store `b[y][x] = v` for indices already known to be in range. -/
def Board.set (b : Board) (y : Fin 21) (x : Fin 51) (v : Int) : Board :=
  fun r c => if r = y ∧ c = x then v else b r c

/-- The statement `currentBoard[y][x] = value` of `ApplyDeltas`, with the two
index checks in evaluation order (row `y` first, then column `x`). -/
def store (b : Board) (y x value : Int) : Option Board :=
  match index 21 y with
  | none => none
  | some r =>
    match index 51 x with
    | none => none
    | some c => some (b.set r c value)

/-- `ApplyDeltas(deltas, currentBoard)`: the `for _, delta := range deltas`
loop, threading the board; `none` when a store panics. -/
def ApplyDeltas : List Delta → Board → Option Board
  | [], b => some b
  | delta :: rest, b =>
    match store b delta.y delta.x delta.value with
    | none => none
    | some b1 => ApplyDeltas rest b1

/-! ### Specification-side vocabulary for the replay claims -/

/-- A delta triple whose coordinates lie on the 21 x 51 board. -/
def Delta.InBounds (d : Delta) : Prop :=
  0 ≤ d.x ∧ d.x < 51 ∧ 0 ≤ d.y ∧ d.y < 21

instance (d : Delta) : Decidable d.InBounds := by
  unfold Delta.InBounds; infer_instance

/-- The delta `d` targets the cell in row `r`, column `c`. -/
def Delta.Targets (d : Delta) (r : Fin 21) (c : Fin 51) : Prop :=
  d.y = (r : Int) ∧ d.x = (c : Int)

instance (d : Delta) (r : Fin 21) (c : Fin 51) : Decidable (d.Targets r c) := by
  unfold Delta.Targets; infer_instance

/-- The single write `board[y][x] := value` as the specification words it:
the targeted cell takes the value, every other cell keeps its content. -/
def writeOne (b : Board) (d : Delta) : Board :=
  fun r c => if d.Targets r c then d.value else b r c

/-- The left fold, in list order, of the single write. -/
def replay (b : Board) (ds : List Delta) : Board :=
  ds.foldl writeOne b

/-! ## Durations and the clock display -/

/-- Go `int` and `time.Duration` are 64-bit two's complement: the value an
arithmetic result takes after wrap-around. -/
def wrapInt64 (n : Int) : Int :=
  (n + 2 ^ 63) % 2 ^ 64 - 2 ^ 63

/-- `time.Millisecond` in nanoseconds. -/
def Millisecond : Int := 1000000

/-- `time.Second` in nanoseconds. -/
def Second : Int := 1000 * Millisecond

/-- `time.Minute` in nanoseconds. -/
def Minute : Int := 60 * Second

/-- `time.Since(start)` read at local time `now` (both in nanoseconds):
`now.Sub(start)`, which saturates at the ends of the `Duration` range. -/
def Since (now start : Int) : Int :=
  if now - start < -(2 ^ 63) then -(2 ^ 63)
  else if 2 ^ 63 - 1 < now - start then 2 ^ 63 - 1
  else now - start

/-- `fmt.Sprintf("%02d", n)`: at least two characters, zero padded, the sign
counting towards the width. -/
def fmt02d (n : Int) : String :=
  if 0 ≤ n then
    (if n < 10 then "0" else "") ++ Nat.repr n.toNat
  else
    "-" ++ Nat.repr n.natAbs

/-! ## `float64` arithmetic -/

/-- Rounding of a rational to the nearest integer, ties to the even one. -/
def roundHalfEven (y : ℚ) : Int :=
  if y - ⌊y⌋ < 1 / 2 then ⌊y⌋
  else if 1 / 2 < y - ⌊y⌋ then ⌊y⌋ + 1
  else if ⌊y⌋ % 2 = 0 then ⌊y⌋ else ⌊y⌋ + 1

/-- The exponent of the binary64 spacing at `x`: 52 below the binary exponent
of `x` (53-bit significand), the exponent not going below -1022 (subnormal
numbers share the spacing `2 ^ (-1074)`). -/
def ulpExp (x : ℚ) : Int :=
  max (Int.log 2 |x|) (-1022) - 52

/-- IEEE 754 binary64 rounding to nearest, ties to even, of a real result `x`
below the overflow threshold: the multiple of the spacing at `x` nearest to
`x`. -/
def roundF64 (x : ℚ) : ℚ :=
  (roundHalfEven (x / 2 ^ ulpExp x) : ℚ) * 2 ^ ulpExp x

/-- The conversion `float64(n)` of a 64-bit integer or `Duration`. -/
def float64 (n : Int) : ℚ :=
  roundF64 (n : ℚ)

/-- A `float64` value: a finite number, an infinity, or NaN. The sign of a
zero is not recorded: the program compares zeros and never divides by a zero
that is the result of an operation. -/
inductive F64 where
  | finite (value : ℚ)
  | inf (negative : Bool)
  | nan
deriving DecidableEq, Repr

/-- The `float64` holding the real result `x` of an operation: rounded, and an
infinity when the rounded magnitude reaches `2 ^ 1024`. -/
def F64.ofRat (x : ℚ) : F64 :=
  if 2 ^ 1024 ≤ |roundF64 x| then .inf (decide (x < 0)) else .finite (roundF64 x)

/-- The `float64` quotient `a / b` of two finite values, the divisor `b` a
converted integer (so a zero divisor is `+0`): NaN for `0 / 0`, an infinity
for a non-zero value over zero, the rounded quotient otherwise. -/
def F64.quot (a b : ℚ) : F64 :=
  if b = 0 then
    if a = 0 then .nan else .inf (decide (a < 0))
  else
    F64.ofRat (a / b)

/-- The comparison `p >= 1.0`; false on NaN. -/
def F64.geOne : F64 → Bool
  | .finite value => decide (1 ≤ value)
  | .inf negative => !negative
  | .nan => false

/-- The conversion `int(x)` of a finite `float64` inside the `int` range: the
fraction is discarded (truncation towards zero). -/
def truncInt (x : ℚ) : Int :=
  if 0 ≤ x then ⌊x⌋ else ⌈x⌉

/-- `Duration.Minutes()` of package `time` on the duration `d`:
`min := d / Minute; nsec := d % Minute;
return float64(min) + float64(nsec)/(60*1e9)`. -/
def Duration.Minutes (d : Int) : ℚ :=
  let min := Int.tdiv d Minute
  let nsec := Int.tmod d Minute
  roundF64 (float64 min + roundF64 (float64 nsec / 60000000000))

/-- `Duration.Seconds()` of package `time` on the duration `d`:
`sec := d / Second; nsec := d % Second;
return float64(sec) + float64(nsec)/1e9`. -/
def Duration.Seconds (d : Int) : ℚ :=
  let sec := Int.tdiv d Second
  let nsec := Int.tmod d Second
  roundF64 (float64 sec + roundF64 (float64 nsec / 1000000000))

/-! ## Messages -/

/-- `communication.BoardMsg`, the Snapshot. -/
structure BoardMsg where
  Points : Int × Int
  Health : Int × Int
  Board : Board

/-- `communication.DeltaMsg`. `TickID` belongs to an unsigned integer type
declared in the `communication` package, outside the two source files (the
wire schema of the specification gives `tickId: uint`); it is kept as a
natural number and the conversion `int(msg.TickID)` is made explicit in
`Update`. -/
structure DeltaMsg where
  TickID : Nat
  Points : Int × Int
  Deltas : List Delta

/-- The key types of `tea.KeyMsg` that `Update` distinguishes. -/
inductive KeyType where
  | KeyCtrlC
  | KeyEsc
  | KeySpace
  | KeyRunes
  | KeyOther
deriving DecidableEq, Repr

/-- `tea.KeyMsg` as `Update` reads it: `msg.Type` and the text `msg.String()`. -/
structure KeyMsg where
  type : KeyType
  string : String
deriving DecidableEq, Repr

/-- The `tea.Msg` values `Update` switches on; `Other` is any other message. -/
inductive Msg where
  | BoardMsg (msg : BoardMsg)
  | DeltaMsg (msg : DeltaMsg)
  | KeyMsg (msg : KeyMsg)
  | CooldownTickMsg
  | Other

/-- The `tea.Cmd` values `Update` returns: `nil`, `tea.Quit`, `doTick()`. -/
inductive Cmd where
  | nil
  | Quit
  | doTick
deriving DecidableEq, Repr

/-! ## The client model -/

/-- `GameModel`, without the connection handle and the two progress-bar
widgets. `gameClock`, `dashcooldown` are durations and `dashStart` a local
time, all in nanoseconds; `percent` is a `float64`. -/
structure GameModel where
  currentBoard : Board
  gameClock : Int
  height : Int
  width : Int
  health : Int × Int
  points : Int × Int
  dashed : Bool
  dashcooldown : Int
  dashStart : Int
  percent : F64

/-- `NewGameModel(conn)`: zero values except `dashcooldown: 5 * time.Second`. -/
def NewGameModel : GameModel where
  currentBoard := fun _ _ => 0
  gameClock := 0
  height := 0
  width := 0
  health := (0, 0)
  points := (0, 0)
  dashed := false
  dashcooldown := 5 * Second
  dashStart := 0
  percent := .finite 0

/-- What one call of `Update` yields: the returned model, the returned
command, and the action codes handed to `communication.SendAction`, in order. -/
structure Outcome where
  model : GameModel
  cmd : Cmd
  sent : List Int

/-- `GameModel.Update(msg)` with the local time `now` that `time.Now()` and
`time.Since` read. `none` is a runtime panic inside `ApplyDeltas`. -/
def GameModel.Update (m : GameModel) (now : Int) : Msg → Option Outcome
  | .BoardMsg msg =>
    some ⟨{ m with points := msg.Points, health := msg.Health, currentBoard := msg.Board },
      .nil, []⟩
  | .DeltaMsg msg =>
    let gameClock := wrapInt64 (wrapInt64 (50 * wrapInt64 (msg.TickID : Int)) * Millisecond)
    match ApplyDeltas msg.Deltas m.currentBoard with
    | none => none
    | some board =>
      some ⟨{ m with gameClock := gameClock, points := msg.Points, currentBoard := board },
        .nil, []⟩
  | .KeyMsg msg =>
    if msg.type = KeyType.KeyCtrlC ∨ msg.type = KeyType.KeyEsc then
      some ⟨m, .Quit, []⟩
    else if msg.string = "w" then some ⟨m, .nil, [1]⟩
    else if msg.string = "s" then some ⟨m, .nil, [2]⟩
    else if msg.string = "a" then some ⟨m, .nil, [3]⟩
    else if msg.string = "d" then some ⟨m, .nil, [4]⟩
    else if msg.string = " " then
      if !m.dashed then
        some ⟨{ m with dashed := true, dashStart := now }, .doTick, [5]⟩
      else
        some ⟨m, .nil, []⟩
    else if msg.string = "j" then some ⟨m, .nil, [6]⟩
    else some ⟨m, .nil, []⟩
  | .CooldownTickMsg =>
    if m.dashed then
      let elapsed := Since now m.dashStart
      let percent := F64.quot (float64 elapsed) (float64 m.dashcooldown)
      if percent.geOne then
        some ⟨{ m with percent := .finite 0, dashed := false }, .doTick, []⟩
      else
        some ⟨{ m with percent := percent }, .doTick, []⟩
    else
      some ⟨{ m with percent := .finite 0 }, .doTick, []⟩
  | .Other => some ⟨m, .nil, []⟩

/-- `minutes := int(m.gameClock.Minutes())` of `View`. -/
def GameModel.minutes (m : GameModel) : Int :=
  truncInt (Duration.Minutes m.gameClock)

/-- `seconds := int(m.gameClock.Seconds()) % 60` of `View`; Go's `%` takes the
sign of the dividend. -/
def GameModel.seconds (m : GameModel) : Int :=
  Int.tmod (truncInt (Duration.Seconds m.gameClock)) 60

/-- The clock text of `View`: `fmt.Sprintf("%02d:%02d", minutes, seconds)`. -/
def GameModel.clockStr (m : GameModel) : String :=
  fmt02d m.minutes ++ ":" ++ fmt02d m.seconds

end Client

namespace Server

/-! ## The flag entity of `server/game/items.go` -/

/-- The cell code type `Cell`, an integer code on the wire. -/
abbrev Cell := Int

/-- Modelled from the spec: the cell constant `Empty`, declared outside the
two source files; the data model lists it as `Empty(1)`. -/
def Empty : Cell := 1

/-- Modelled from the spec: the Delta Tracker, declared outside the two source
files: an append-only ordered sequence of `(x, y, newValue)` triples. -/
structure DeltaTracker where
  deltas : List (Int × Int × Cell)
deriving DecidableEq, Repr

/-- Modelled from the spec: `Tracker.SaveDelta(x, y, value)` appends the
triple `(x, y, value)` to the tracker's sequence. -/
def DeltaTracker.SaveDelta (t : DeltaTracker) (x y : Int) (value : Cell) : DeltaTracker :=
  ⟨t.deltas ++ [(x, y, value)]⟩

/-- The part of the server `Board` that `Flag.Move` uses: its `Tracker`. -/
structure Board where
  Tracker : DeltaTracker
deriving DecidableEq, Repr

/-- The struct `Flag`. -/
structure Flag where
  TeamId : Cell
  PosX : Int
  PosY : Int
  baseX : Int
  baseY : Int
  IsCaptured : Bool
deriving DecidableEq, Repr

/-- `Flag.Move(x, y, board)`: the flag and the board after the call. -/
def Flag.Move (f : Flag) (x y : Int) (board : Board) : Flag × Board :=
  let board1 : Board := ⟨board.Tracker.SaveDelta f.PosX f.PosY Empty⟩
  let f1 : Flag := { f with PosX := x }
  let f2 : Flag := { f1 with PosY := y }
  (f2, ⟨board1.Tracker.SaveDelta f2.PosX f2.PosY f2.TeamId⟩)

/-- `Flag.SetBase()`. -/
def Flag.SetBase (f : Flag) : Flag :=
  let f1 : Flag := { f with baseX := f.PosX }
  { f1 with baseY := f1.PosY }

/-- `Flag.ResetPos()`. -/
def Flag.ResetPos (f : Flag) : Flag :=
  let f1 : Flag := { f with PosX := f.baseX }
  let f2 : Flag := { f1 with PosY := f1.baseY }
  { f2 with IsCaptured := false }

/-- `Flag.GetBase()`: the base as `(baseY, baseX)`. -/
def Flag.GetBase (f : Flag) : Int × Int :=
  (f.baseY, f.baseX)

/-- `Flag.IsSafe()`. -/
def Flag.IsSafe (f : Flag) : Bool :=
  decide (f.baseX = f.PosX) && decide (f.baseY = f.PosY) && !f.IsCaptured

/-- What other server code does to a flag between `SetBase` and `ResetPos`:
a `Move` call, or an assignment to the exported field `IsCaptured`. -/
inductive FlagOp where
  | Move (x y : Int)
  | SetCaptured (captured : Bool)
deriving DecidableEq, Repr

/-- One such operation on a flag and the board it moves on. -/
def FlagOp.apply (s : Flag × Board) : FlagOp → Flag × Board
  | .Move x y => s.1.Move x y s.2
  | .SetCaptured captured => ({ s.1 with IsCaptured := captured }, s.2)

/-- A sequence of such operations, in order. -/
def runOps (s : Flag × Board) (ops : List FlagOp) : Flag × Board :=
  ops.foldl FlagOp.apply s

/-- A recorded triple as the `[3]int` entry the client receives. -/
def toDelta (t : Int × Int × Cell) : Client.Delta :=
  ⟨t.1, t.2.1, t.2.2⟩

end Server

namespace Client

/-! ## Lemmas on `ApplyDeltas` -/

theorem index_eq_some_iff {n : Nat} {i : Int} {k : Fin n} :
    index n i = some k ↔ i = (k : Int) := by
  unfold index
  split
  · rename_i h
    simp only [Option.some.injEq]
    constructor
    · intro hk
      rw [← hk]
      simp [Int.toNat_of_nonneg h.1]
    · intro hk
      apply Fin.ext
      simp [hk]
  · rename_i h
    constructor
    · intro hk
      cases hk
    · intro hk
      exfalso
      apply h
      rw [hk]
      exact ⟨Int.natCast_nonneg _, by exact_mod_cast k.isLt⟩

theorem index_isSome_iff {n : Nat} {i : Int} :
    (index n i).isSome = true ↔ 0 ≤ i ∧ i < (n : Int) := by
  unfold index
  split
  · rename_i h
    simpa using h
  · rename_i h
    simpa using h

theorem store_of_inBounds (b : Board) (d : Delta) (h : d.InBounds) :
    store b d.y d.x d.value = some (writeOne b d) := by
  obtain ⟨hx0, hx1, hy0, hy1⟩ := h
  have hr : index 21 d.y = some ⟨d.y.toNat, by omega⟩ := by
    rw [index_eq_some_iff]; simp [Int.toNat_of_nonneg hy0]
  have hc : index 51 d.x = some ⟨d.x.toNat, by omega⟩ := by
    rw [index_eq_some_iff]; simp [Int.toNat_of_nonneg hx0]
  simp only [store, hr, hc, Option.some.injEq]
  funext r c
  simp only [Board.set, writeOne, Delta.Targets]
  have e1 : (r = (⟨d.y.toNat, by omega⟩ : Fin 21)) ↔ d.y = (r : Int) := by
    constructor
    · intro h; rw [h]; simp [Int.toNat_of_nonneg hy0]
    · intro h; apply Fin.ext; simp [h]
  have e2 : (c = (⟨d.x.toNat, by omega⟩ : Fin 51)) ↔ d.x = (c : Int) := by
    constructor
    · intro h; rw [h]; simp [Int.toNat_of_nonneg hx0]
    · intro h; apply Fin.ext; simp [h]
  simp only [e1, e2]

theorem store_isSome_iff (b : Board) (d : Delta) :
    (store b d.y d.x d.value).isSome = true ↔ d.InBounds := by
  constructor
  · intro h
    unfold store at h
    cases hr : index 21 d.y with
    | none => simp [hr] at h
    | some r =>
      cases hc : index 51 d.x with
      | none => simp [hr, hc] at h
      | some c =>
        have h1 := (@index_isSome_iff 21 d.y).1 (by simp [hr])
        have h2 := (@index_isSome_iff 51 d.x).1 (by simp [hc])
        exact ⟨h2.1, by simpa using h2.2, h1.1, by simpa using h1.2⟩
  · intro h
    simp [store_of_inBounds b d h]

theorem applyDeltas_eq_replay (ds : List Delta) (b : Board)
    (h : ∀ d ∈ ds, d.InBounds) : ApplyDeltas ds b = some (replay b ds) := by
  induction ds generalizing b with
  | nil => rfl
  | cons d rest ih =>
    have hd : d.InBounds := h d (List.mem_cons_self _ _)
    have hrest : ∀ e ∈ rest, e.InBounds := fun e he => h e (List.mem_cons_of_mem _ he)
    simp only [ApplyDeltas, store_of_inBounds b d hd, replay, List.foldl_cons]
    exact ih (writeOne b d) hrest

theorem applyDeltas_isSome_iff (ds : List Delta) (b : Board) :
    (ApplyDeltas ds b).isSome = true ↔ ∀ d ∈ ds, d.InBounds := by
  induction ds generalizing b with
  | nil => simp [ApplyDeltas]
  | cons d rest ih =>
    simp only [ApplyDeltas, List.mem_cons, forall_eq_or_imp]
    cases hs : store b d.y d.x d.value with
    | none =>
      have : ¬ d.InBounds := by
        intro hd
        rw [store_of_inBounds b d hd] at hs
        cases hs
      simp [this]
    | some b1 =>
      have : d.InBounds := (store_isSome_iff b d).1 (by simp [hs])
      simp [this, ih b1]

theorem replay_untouched (ds : List Delta) (b : Board) (r : Fin 21) (c : Fin 51)
    (h : ∀ d ∈ ds, ¬ d.Targets r c) : replay b ds r c = b r c := by
  induction ds generalizing b with
  | nil => rfl
  | cons d rest ih =>
    have hd : ¬ d.Targets r c := h d (List.mem_cons_self _ _)
    have hrest : ∀ e ∈ rest, ¬ e.Targets r c :=
      fun e he => h e (List.mem_cons_of_mem _ he)
    simp only [replay, List.foldl_cons]
    have := ih (writeOne b d) hrest
    simp only [replay] at this
    rw [this]
    simp [writeOne, hd]

theorem replay_append (b : Board) (xs ys : List Delta) :
    replay b (xs ++ ys) = replay (replay b xs) ys := by
  simp [replay, List.foldl_append]

theorem replay_last (pre post : List Delta) (d : Delta) (b : Board)
    (r : Fin 21) (c : Fin 51) (hd : d.Targets r c)
    (hpost : ∀ e ∈ post, ¬ e.Targets r c) :
    replay b (pre ++ d :: post) r c = d.value := by
  rw [replay_append]
  have : replay (replay b pre) (d :: post) = replay (writeOne (replay b pre) d) post := rfl
  rw [this, replay_untouched post _ r c hpost]
  simp [writeOne, hd]

end Client

namespace Client

/-! ## Replay of a delta list (`ApplyDeltas`) -/

/-- C1. For every replica board and every delta list whose triples all have
`0 ≤ x < 51` and `0 ≤ y < 21`, `ApplyDeltas` returns the left fold, in list
order, of the single write `board[y][x] := value`; in the result every cell
that some delta targets holds the value of the last delta of the list with
those coordinates, and every cell that no delta targets is unchanged. -/
theorem applyDeltas_fold_last_write_wins (b : Board) (ds : List Delta)
    (h : ∀ d ∈ ds, d.InBounds) :
    ApplyDeltas ds b = some (replay b ds) ∧
    (∀ (pre : List Delta) (d : Delta) (post : List Delta) (r : Fin 21) (c : Fin 51),
      ds = pre ++ d :: post → d.Targets r c → (∀ e ∈ post, ¬ e.Targets r c) →
      replay b ds r c = d.value) ∧
    (∀ (r : Fin 21) (c : Fin 51), (∀ d ∈ ds, ¬ d.Targets r c) →
      replay b ds r c = b r c) := by
  refine ⟨applyDeltas_eq_replay ds b h, ?_, ?_⟩
  · intro pre d post r c hds hd hpost
    rw [hds]
    exact replay_last pre post d b r c hd hpost
  · intro r c hnone
    exact replay_untouched ds b r c hnone

/-- C1 at a concrete input: three in-bounds deltas, two of them on cell
`[5][5]`, replayed on the all-zero board. -/
theorem applyDeltas_fold_last_write_wins_witness :
    (∀ d ∈ [(⟨5, 5, 1⟩ : Delta), ⟨6, 5, 4⟩, ⟨5, 5, 9⟩], d.InBounds) ∧
    ApplyDeltas [⟨5, 5, 1⟩, ⟨6, 5, 4⟩, ⟨5, 5, 9⟩] (fun _ _ => 0)
      = some (replay (fun _ _ => 0) [⟨5, 5, 1⟩, ⟨6, 5, 4⟩, ⟨5, 5, 9⟩]) ∧
    replay (fun _ _ => 0) [⟨5, 5, 1⟩, ⟨6, 5, 4⟩, ⟨5, 5, 9⟩] 5 5 = 9 ∧
    replay (fun _ _ => 0) [⟨5, 5, 1⟩, ⟨6, 5, 4⟩, ⟨5, 5, 9⟩] 0 0 = 0 :=
  have h := applyDeltas_fold_last_write_wins (fun _ _ => 0)
    [⟨5, 5, 1⟩, ⟨6, 5, 4⟩, ⟨5, 5, 9⟩] (by decide)
  ⟨by decide, h.1,
    h.2.1 [⟨5, 5, 1⟩, ⟨6, 5, 4⟩] ⟨5, 5, 9⟩ [] 5 5 rfl (by decide) (by simp),
    h.2.2 0 0 (by decide)⟩

/-- C5, counterexample. A delta list with a column index 51 (and one with a
row index -1) makes `ApplyDeltas` fail with index out of range, and so does
`GameModel.Update` on the Delta message carrying it. -/
theorem applyDeltas_out_of_range_panics :
    (ApplyDeltas [⟨51, 0, 1⟩] (fun _ _ => 1)).isSome = false ∧
    (ApplyDeltas [⟨0, -1, 1⟩] (fun _ _ => 1)).isSome = false ∧
    (NewGameModel.Update 0 (.DeltaMsg ⟨1, (0, 0), [⟨51, 0, 1⟩]⟩)).isSome = false := by
  decide

/-- C5, amended. `ApplyDeltas` completes exactly when every triple of the list
has `0 ≤ x < 51` and `0 ≤ y < 21`, and so does `GameModel.Update` on the Delta
message carrying the list: in-range lists never fail, and a list with an
out-of-range triple stops with the runtime's index-out-of-range panic. -/
theorem applyDeltas_completes_iff_inBounds (m : GameModel) (now : Int) (msg : DeltaMsg) :
    ((ApplyDeltas msg.Deltas m.currentBoard).isSome = true ↔ ∀ d ∈ msg.Deltas, d.InBounds) ∧
    ((m.Update now (.DeltaMsg msg)).isSome = true ↔ ∀ d ∈ msg.Deltas, d.InBounds) := by
  refine ⟨applyDeltas_isSome_iff _ _, ?_⟩
  rw [← applyDeltas_isSome_iff msg.Deltas m.currentBoard]
  simp only [GameModel.Update]
  cases ApplyDeltas msg.Deltas m.currentBoard <;> simp

end Client

namespace Server

/-! ## The flag entity -/

theorem move_fst_base (f : Flag) (x y : Int) (board : Board) :
    (f.Move x y board).1.baseX = f.baseX ∧ (f.Move x y board).1.baseY = f.baseY :=
  ⟨rfl, rfl⟩

theorem runOps_base (ops : List FlagOp) (s : Flag × Board) :
    (runOps s ops).1.baseX = s.1.baseX ∧ (runOps s ops).1.baseY = s.1.baseY := by
  induction ops generalizing s with
  | nil => exact ⟨rfl, rfl⟩
  | cons op rest ih =>
    have hstep : runOps s (op :: rest) = runOps (FlagOp.apply s op) rest := rfl
    rw [hstep]
    obtain ⟨h1, h2⟩ := ih (FlagOp.apply s op)
    rw [h1, h2]
    cases op <;> exact ⟨rfl, rfl⟩

/-- C2. For every flag at `(x1, y1)` with team marker `t`, every target
`(x2, y2)` and every prior tracker content, `Move(x2, y2, board)` leaves the
tracker holding the prior content followed by exactly two deltas, in this
order: `(x1, y1, Empty)` then `(x2, y2, t)`. -/
theorem move_records_two_deltas (f : Flag) (x2 y2 : Int) (board : Board) :
    (f.Move x2 y2 board).2.Tracker.deltas
      = board.Tracker.deltas ++ [(f.PosX, f.PosY, Empty), (x2, y2, f.TeamId)] := by
  simp [Flag.Move, DeltaTracker.SaveDelta]

/-- C3. For every flag state, after `SetBase()`, any sequence of `Move` calls
and `IsCaptured` assignments, and then `ResetPos()`: `IsSafe()` is true,
`IsCaptured` is false, and `(PosY, PosX)` is the pair `GetBase()` returns,
which is the position the flag had when `SetBase()` was called. -/
theorem setBase_ops_resetPos_safe (f : Flag) (board : Board) (ops : List FlagOp) :
    ((runOps (f.SetBase, board) ops).1.ResetPos).IsSafe = true ∧
    ((runOps (f.SetBase, board) ops).1.ResetPos).IsCaptured = false ∧
    (((runOps (f.SetBase, board) ops).1.ResetPos).PosY,
      ((runOps (f.SetBase, board) ops).1.ResetPos).PosX)
      = ((runOps (f.SetBase, board) ops).1.ResetPos).GetBase ∧
    ((runOps (f.SetBase, board) ops).1.ResetPos).GetBase = (f.PosY, f.PosX) := by
  obtain ⟨hx, hy⟩ := runOps_base ops (f.SetBase, board)
  refine ⟨?_, rfl, rfl, ?_⟩
  · simp [Flag.IsSafe, Flag.ResetPos]
  · have hx1 : (runOps (f.SetBase, board) ops).1.baseX = f.PosX := hx
    have hy1 : (runOps (f.SetBase, board) ops).1.baseY = f.PosY := hy
    show ((runOps (f.SetBase, board) ops).1.baseY, (runOps (f.SetBase, board) ops).1.baseX)
      = (f.PosY, f.PosX)
    rw [hx1, hy1]

end Server

namespace Client

/-! ## Lemmas on binary64 rounding -/

theorem floor_le_roundHalfEven (y : ℚ) : ⌊y⌋ ≤ roundHalfEven y := by
  unfold roundHalfEven
  split
  · exact le_refl _
  · split
    · omega
    · split <;> omega

theorem roundHalfEven_ge (y : ℚ) (A : ℤ) (h : (A : ℚ) ≤ y) : A ≤ roundHalfEven y :=
  le_trans (Int.le_floor.2 h) (floor_le_roundHalfEven y)

theorem roundHalfEven_le (y : ℚ) (B : ℤ) (h : y ≤ (B : ℚ)) : roundHalfEven y ≤ B := by
  have hf : ⌊y⌋ ≤ B := by
    have := Int.floor_le y
    exact_mod_cast (le_trans this h)
  rcases eq_or_lt_of_le hf with heq | hlt
  · have hy : y - (⌊y⌋ : ℚ) < 1 / 2 := by
      rw [heq]
      have : y - (B : ℚ) ≤ 0 := by linarith
      linarith
    unfold roundHalfEven
    rw [if_pos hy]
    exact hf
  · unfold roundHalfEven
    split
    · exact hf
    · split
      · omega
      · split <;> omega

theorem two_zpow_pos (k : ℤ) : (0 : ℚ) < 2 ^ k :=
  zpow_pos (by norm_num) k

theorem roundF64_ge_mul (x : ℚ) (A : ℤ) (h : (A : ℚ) * 2 ^ ulpExp x ≤ x) :
    (A : ℚ) * 2 ^ ulpExp x ≤ roundF64 x := by
  have hq := two_zpow_pos (ulpExp x)
  have h1 : (A : ℚ) ≤ x / 2 ^ ulpExp x := (le_div_iff₀ hq).2 h
  have h2 : A ≤ roundHalfEven (x / 2 ^ ulpExp x) := roundHalfEven_ge _ _ h1
  unfold roundF64
  have h3 : (A : ℚ) ≤ (roundHalfEven (x / 2 ^ ulpExp x) : ℚ) := by exact_mod_cast h2
  exact mul_le_mul_of_nonneg_right h3 (le_of_lt hq)

theorem roundF64_le_mul (x : ℚ) (B : ℤ) (h : x ≤ (B : ℚ) * 2 ^ ulpExp x) :
    roundF64 x ≤ (B : ℚ) * 2 ^ ulpExp x := by
  have hq := two_zpow_pos (ulpExp x)
  have h1 : x / 2 ^ ulpExp x ≤ (B : ℚ) := (div_le_iff₀ hq).2 h
  have h2 : roundHalfEven (x / 2 ^ ulpExp x) ≤ B := roundHalfEven_le _ _ h1
  unfold roundF64
  have h3 : (roundHalfEven (x / 2 ^ ulpExp x) : ℚ) ≤ (B : ℚ) := by exact_mod_cast h2
  exact mul_le_mul_of_nonneg_right h3 (le_of_lt hq)

theorem ulpExp_le (x : ℚ) (n k : ℤ) (hx : 0 < x) (hxn : x < 2 ^ n)
    (hk : n - 53 ≤ k) (hk2 : -1074 ≤ k) : ulpExp x ≤ k := by
  have hl : Int.log 2 x < n :=
    (Int.lt_zpow_iff_log_lt (by norm_num) hx).1 (by exact_mod_cast hxn)
  unfold ulpExp
  rw [abs_of_pos hx]
  have : max (Int.log 2 x) (-1022) ≤ k + 52 := max_le (by omega) (by omega)
  omega

theorem dyadic_multiple (N : ℤ) (k j : ℤ) (h : j ≤ k) :
    (N : ℚ) * 2 ^ k = ((N * 2 ^ (k - j).toNat : ℤ) : ℚ) * 2 ^ j := by
  have hk : k = ((k - j).toNat : ℤ) + j := by
    rw [Int.toNat_of_nonneg (by omega)]; ring
  conv_lhs => rw [hk]
  rw [zpow_add₀ (by norm_num : (2 : ℚ) ≠ 0), zpow_natCast]
  push_cast
  ring

/-- A lower bound `N * 2 ^ k` on `x` that lies on the binary64 grid at `x`
is a lower bound on the rounded value. -/
theorem roundF64_ge (x : ℚ) (N : ℤ) (n k : ℤ) (hx : 0 < x) (hxn : x < 2 ^ n)
    (hk : n - 53 ≤ k) (hk2 : -1074 ≤ k) (h : (N : ℚ) * 2 ^ k ≤ x) :
    (N : ℚ) * 2 ^ k ≤ roundF64 x := by
  have hu := ulpExp_le x n k hx hxn hk hk2
  rw [dyadic_multiple N k (ulpExp x) hu] at h ⊢
  exact roundF64_ge_mul x _ h

/-- An upper bound `N * 2 ^ k` on `x` that lies on the binary64 grid at `x`
is an upper bound on the rounded value. -/
theorem roundF64_le (x : ℚ) (N : ℤ) (n k : ℤ) (hx : 0 < x) (hxn : x < 2 ^ n)
    (hk : n - 53 ≤ k) (hk2 : -1074 ≤ k) (h : x ≤ (N : ℚ) * 2 ^ k) :
    roundF64 x ≤ (N : ℚ) * 2 ^ k := by
  have hu := ulpExp_le x n k hx hxn hk hk2
  rw [dyadic_multiple N k (ulpExp x) hu] at h ⊢
  exact roundF64_le_mul x _ h

theorem roundF64_zero : roundF64 0 = 0 := by
  simp [roundF64, roundHalfEven]

theorem roundF64_nonneg (x : ℚ) (hx : 0 ≤ x) : 0 ≤ roundF64 x := by
  have := roundF64_ge_mul x 0 (by simpa using hx)
  simpa using this

/-- Rounding leaves `N * 2 ^ k` with a significand `N` below `2 ^ 53` as it
is. -/
theorem roundF64_dyadic (N : ℤ) (k : ℤ) (hN0 : 0 ≤ N) (hN : N < 2 ^ 53) (hk : -1074 ≤ k) :
    roundF64 ((N : ℚ) * 2 ^ k) = (N : ℚ) * 2 ^ k := by
  rcases eq_or_lt_of_le hN0 with h0 | hpos0
  · rw [← h0]; simp [roundF64_zero]
  have hq := two_zpow_pos k
  have hpos : (0 : ℚ) < (N : ℚ) * 2 ^ k := mul_pos (by exact_mod_cast hpos0) hq
  have hlt : (N : ℚ) * 2 ^ k < 2 ^ (53 + k) := by
    rw [zpow_add₀ (by norm_num : (2 : ℚ) ≠ 0)]
    apply mul_lt_mul_of_pos_right _ hq
    have h1 : (N : ℚ) < ((2 ^ 53 : ℤ) : ℚ) := by exact_mod_cast hN
    have h2 : (((2 : ℤ) ^ 53 : ℤ) : ℚ) = (2 : ℚ) ^ (53 : ℤ) := by norm_num
    rw [← h2]; exact h1
  apply le_antisymm
  · exact roundF64_le _ N (53 + k) k hpos hlt (by omega) hk (le_refl _)
  · exact roundF64_ge _ N (53 + k) k hpos hlt (by omega) hk (le_refl _)

/-- Integers below `2 ^ 53` convert to `float64` exactly. -/
theorem float64_of_small (n : ℤ) (h0 : 0 ≤ n) (h : n < 2 ^ 53) : float64 n = (n : ℚ) := by
  have := roundF64_dyadic n 0 h0 h (by norm_num)
  simpa [float64] using this

/-- The truncated `float64` sum of a whole part `q0` and the rounded quotient
of a remainder `r0` by the unit `U` is the whole part, when the remainder
leaves at least `U / 2048` to the next unit. -/
theorem truncInt_whole_plus_fraction (q0 r0 U : ℤ) (hq0 : 0 ≤ q0) (hq : q0 < 2 ^ 34)
    (hr0 : 0 ≤ r0) (hU : 0 < U) (hU53 : U < 2 ^ 53) (hr : r0 * 2048 ≤ U * 2047) :
    truncInt (roundF64 (float64 q0 + roundF64 (float64 r0 / (U : ℚ)))) = q0 := by
  have hUq : (0 : ℚ) < (U : ℚ) := by exact_mod_cast hU
  have hq0q : (0 : ℚ) ≤ (q0 : ℚ) := by exact_mod_cast hq0
  have hr0q : (0 : ℚ) ≤ (r0 : ℚ) := by exact_mod_cast hr0
  have hqq : (q0 : ℚ) < 2 ^ 34 := by exact_mod_cast hq
  have hrq : (r0 : ℚ) * 2048 ≤ (U : ℚ) * 2047 := by exact_mod_cast hr
  rw [float64_of_small q0 hq0 (by omega), float64_of_small r0 hr0 (by omega)]
  have hx1 : (r0 : ℚ) / (U : ℚ) ≤ 2047 / 2048 := by
    rw [div_le_iff₀ hUq]
    linarith
  have hc0 : 0 ≤ roundF64 ((r0 : ℚ) / (U : ℚ)) :=
    roundF64_nonneg _ (div_nonneg hr0q (le_of_lt hUq))
  have hc1 : roundF64 ((r0 : ℚ) / (U : ℚ)) ≤ 2047 / 2048 := by
    rcases eq_or_lt_of_le hr0q with h | h
    · rw [← h]; simp only [zero_div, roundF64_zero]; norm_num
    · have hx : 0 < (r0 : ℚ) / (U : ℚ) := div_pos h hUq
      have := roundF64_le _ 2047 0 (-11) hx (by norm_num; linarith) (by norm_num)
        (by norm_num) (by norm_num; linarith)
      norm_num at this
      linarith
  generalize roundF64 ((r0 : ℚ) / (U : ℚ)) = c at hc0 hc1
  have hres : (q0 : ℚ) ≤ roundF64 ((q0 : ℚ) + c) ∧ roundF64 ((q0 : ℚ) + c) < (q0 : ℚ) + 1 := by
    rcases eq_or_lt_of_le (add_nonneg hq0q hc0) with h | h
    · have hq00 : (q0 : ℚ) = 0 := by linarith
      rw [← h, roundF64_zero, hq00]; norm_num
    · have hlt : (q0 : ℚ) + c < 2 ^ (35 : ℤ) := by norm_num; linarith
      have hlo := roundF64_ge _ q0 35 0 h hlt (by norm_num) (by norm_num)
        (by norm_num; linarith)
      have hhi := roundF64_le _ ((q0 + 1) * 2048 - 1) 35 (-11) h hlt (by norm_num)
        (by norm_num) (by push_cast; norm_num; linarith)
      push_cast at hhi
      norm_num at hlo hhi
      constructor
      · exact hlo
      · linarith
  unfold truncInt
  rw [if_pos (le_trans hq0q hres.1), Int.floor_eq_iff]
  exact hres

theorem fmt02d_two_digits (n : ℕ) (h : n < 100) :
    fmt02d (n : ℤ) = String.mk [Char.ofNat (48 + n / 10), Char.ofNat (48 + n % 10)] := by
  have key : ∀ k : Fin 100, fmt02d ((k : ℕ) : ℤ)
      = String.mk [Char.ofNat (48 + k / 10), Char.ofNat (48 + k % 10)] := by decide
  exact key ⟨n, h⟩

theorem fmt02d_numeral (n : ℕ) (h : 100 ≤ n) : fmt02d (n : ℤ) = Nat.repr n := by
  have h1 : ¬ ((n : ℤ) < 10) := by omega
  simp [fmt02d, h1]

/-! ## `GameModel.Update` on Snapshot and Delta messages -/

theorem wrapInt64_of_inRange (n : Int) (h1 : -(2 ^ 63) ≤ n) (h2 : n < 2 ^ 63) :
    wrapInt64 n = n := by
  unfold wrapInt64
  omega

theorem update_delta_of_inBounds (m : GameModel) (now : Int) (msg : DeltaMsg)
    (h : ∀ d ∈ msg.Deltas, d.InBounds) :
    m.Update now (.DeltaMsg msg) = some
      ⟨{ m with
          gameClock := wrapInt64 (wrapInt64 (50 * wrapInt64 (msg.TickID : Int)) * Millisecond),
          points := msg.Points,
          currentBoard := replay m.currentBoard msg.Deltas }, .nil, []⟩ := by
  simp only [GameModel.Update, applyDeltas_eq_replay msg.Deltas m.currentBoard h]

theorem update_delta_clock (m : GameModel) (now : Int) (msg : DeltaMsg) (o : Outcome)
    (h : m.Update now (.DeltaMsg msg) = some o) :
    o.model.gameClock
      = wrapInt64 (wrapInt64 (50 * wrapInt64 (msg.TickID : Int)) * Millisecond) := by
  simp only [GameModel.Update] at h
  cases hb : ApplyDeltas msg.Deltas m.currentBoard with
  | none => simp [hb] at h
  | some board =>
    simp only [hb, Option.some.injEq] at h
    rw [← h]

/-- C4, counterexample. After a Delta with tick id 5 has been applied, a Delta
with tick id 3 carrying the write `(0, 0, 7)` is handled and changes cell
`[0][0]` of the replica from 0 to 7. -/
theorem stale_delta_is_written :
    (NewGameModel.Update 0 (.DeltaMsg ⟨5, (0, 0), []⟩)).map
      (fun o => o.model.currentBoard 0 0) = some 0 ∧
    ((NewGameModel.Update 0 (.DeltaMsg ⟨5, (0, 0), []⟩)).bind
      (fun o => o.model.Update 0 (.DeltaMsg ⟨3, (0, 0), [⟨0, 0, 7⟩]⟩))).map
      (fun o => o.model.currentBoard 0 0) = some 7 := by
  decide

/-- C4, amended. A Delta message whose tick id is at most the tick id of a
Delta already applied is not rejected: `GameModel.Update` handles it like any
other Delta, so with in-range deltas the replica board afterwards is the board
before with the message's deltas written in list order; it is identical to the
board before when the message's delta list is empty. -/
theorem stale_delta_applied_in_order (m : GameModel) (now1 now2 : Int)
    (first second : DeltaMsg)
    (h1 : ∀ d ∈ first.Deltas, d.InBounds) (h2 : ∀ d ∈ second.Deltas, d.InBounds)
    (_hstale : second.TickID ≤ first.TickID) :
    ∃ o1 o2, m.Update now1 (.DeltaMsg first) = some o1 ∧
      o1.model.Update now2 (.DeltaMsg second) = some o2 ∧
      o2.model.currentBoard = replay o1.model.currentBoard second.Deltas ∧
      (second.Deltas = [] → o2.model.currentBoard = o1.model.currentBoard) := by
  refine ⟨_, _, update_delta_of_inBounds m now1 first h1,
    update_delta_of_inBounds _ now2 second h2, rfl, ?_⟩
  intro hnil
  simp [hnil, replay]

/-- C4 amended, at a concrete input: tick id 5 then tick id 3. -/
theorem stale_delta_applied_in_order_witness :
    (∀ d ∈ ([] : List Delta), d.InBounds) ∧
    (∀ d ∈ [(⟨0, 0, 7⟩ : Delta)], d.InBounds) ∧ (3 : Nat) ≤ 5 ∧
    ∃ o1 o2, NewGameModel.Update 0 (.DeltaMsg ⟨5, (0, 0), []⟩) = some o1 ∧
      o1.model.Update 0 (.DeltaMsg ⟨3, (0, 0), [⟨0, 0, 7⟩]⟩) = some o2 ∧
      o2.model.currentBoard = replay o1.model.currentBoard [⟨0, 0, 7⟩] ∧
      (([⟨0, 0, 7⟩] : List Delta) = [] → o2.model.currentBoard = o1.model.currentBoard) :=
  ⟨by decide, by decide, by decide,
    stale_delta_applied_in_order NewGameModel 0 0 ⟨5, (0, 0), []⟩ ⟨3, (0, 0), [⟨0, 0, 7⟩]⟩
      (by decide) (by decide) (by decide)⟩

theorem minutes_of_tick_clock (t : ℕ) (ht : (t : Int) * 50000000 < 2 ^ 63) :
    truncInt (Duration.Minutes ((t : Int) * 50000000)) = 50 * (t : Int) / 60000 := by
  have hM : Minute = 60000000000 := by decide
  have hd : (0 : Int) ≤ (t : Int) * 50000000 := by omega
  unfold Duration.Minutes
  simp only [hM]
  rw [Int.tdiv_eq_ediv hd (by norm_num), Int.tmod_eq_emod hd (by norm_num)]
  have h := truncInt_whole_plus_fraction ((t : Int) * 50000000 / 60000000000)
    ((t : Int) * 50000000 % 60000000000) 60000000000 (by omega) (by omega) (by omega)
    (by norm_num) (by norm_num) (by omega)
  have hc : ((60000000000 : Int) : ℚ) = (60000000000 : ℚ) := by norm_num
  rw [hc] at h
  rw [h]
  omega

theorem seconds_of_tick_clock (t : ℕ) (ht : (t : Int) * 50000000 < 2 ^ 63) :
    Int.tmod (truncInt (Duration.Seconds ((t : Int) * 50000000))) 60
      = 50 * (t : Int) / 1000 % 60 := by
  have hS : Second = 1000000000 := by decide
  have hd : (0 : Int) ≤ (t : Int) * 50000000 := by omega
  unfold Duration.Seconds
  simp only [hS]
  rw [Int.tdiv_eq_ediv hd (by norm_num), Int.tmod_eq_emod hd (by norm_num)]
  have h := truncInt_whole_plus_fraction ((t : Int) * 50000000 / 1000000000)
    ((t : Int) * 50000000 % 1000000000) 1000000000 (by omega) (by omega) (by omega)
    (by norm_num) (by norm_num) (by omega)
  have hc : ((1000000000 : Int) : ℚ) = (1000000000 : ℚ) := by norm_num
  rw [hc] at h
  rw [h, Int.tmod_eq_emod (by omega) (by norm_num)]
  omega

/-- C6, counterexample. With the tick id 184467440738 the product
`50 * int(TickID)` times `time.Millisecond` leaves the 64-bit `Duration` range
and wraps around: the game clock after `Update` is the negative duration
-9223372036809551616 ns, not 184467440738 times 50 ms. -/
theorem delta_clock_wraps_around :
    (NewGameModel.Update 0 (.DeltaMsg ⟨184467440738, (0, 0), []⟩)).map
      (fun o => o.model.gameClock) = some (-9223372036809551616) ∧
    (-9223372036809551616 : Int) ≠ 184467440738 * (50 * Millisecond) := by
  decide

/-- C6, amended. For every model state and every Delta message with tick id
`t` such that `t` times 50 ms fits the 64-bit `Duration` (at most
184467440737, which covers every 32-bit tick id), the game clock `Update`
returns is exactly `t` times 50 ms, whatever the clock was before; `View`
computes `minutes = 50t / 60000` and `seconds = (50t / 1000) mod 60` and shows
them as `MM:SS`, each with two decimal digits (the plain decimal numeral for
100 minutes and more); the update returns for every in-range delta list. -/
theorem delta_clock_within_duration_range (m : GameModel) (now : Int) (msg : DeltaMsg)
    (ht : (msg.TickID : Int) * 50000000 < 2 ^ 63) :
    (∀ o, m.Update now (.DeltaMsg msg) = some o →
      o.model.gameClock = (msg.TickID : Int) * (50 * Millisecond) ∧
      o.model.minutes = 50 * (msg.TickID : Int) / 60000 ∧
      o.model.seconds = 50 * (msg.TickID : Int) / 1000 % 60 ∧
      o.model.clockStr =
        (if 50 * msg.TickID / 60000 < 100 then
          String.mk [Char.ofNat (48 + 50 * msg.TickID / 60000 / 10),
            Char.ofNat (48 + 50 * msg.TickID / 60000 % 10)]
        else Nat.repr (50 * msg.TickID / 60000)) ++ ":" ++
        String.mk [Char.ofNat (48 + 50 * msg.TickID / 1000 % 60 / 10),
          Char.ofNat (48 + 50 * msg.TickID / 1000 % 60 % 10)]) ∧
    ((∀ d ∈ msg.Deltas, d.InBounds) → ∃ o, m.Update now (.DeltaMsg msg) = some o) := by
  have ht0 : (0 : Int) ≤ (msg.TickID : Int) := Int.natCast_nonneg _
  constructor
  · intro o ho
    have hc := update_delta_clock m now msg o ho
    have e1 : wrapInt64 (msg.TickID : Int) = (msg.TickID : Int) :=
      wrapInt64_of_inRange _ (by omega) (by omega)
    have e2 : wrapInt64 (50 * (msg.TickID : Int)) = 50 * (msg.TickID : Int) :=
      wrapInt64_of_inRange _ (by omega) (by omega)
    have e3 : wrapInt64 (50 * (msg.TickID : Int) * Millisecond)
        = 50 * (msg.TickID : Int) * Millisecond :=
      wrapInt64_of_inRange _ (by unfold Millisecond; omega) (by unfold Millisecond; omega)
    rw [e1, e2, e3] at hc
    have hclock : o.model.gameClock = (msg.TickID : Int) * 50000000 := by
      rw [hc]; unfold Millisecond; omega
    have hmin : o.model.minutes = 50 * (msg.TickID : Int) / 60000 := by
      unfold GameModel.minutes
      rw [hclock]
      exact minutes_of_tick_clock msg.TickID ht
    have hsec : o.model.seconds = 50 * (msg.TickID : Int) / 1000 % 60 := by
      unfold GameModel.seconds
      rw [hclock]
      exact seconds_of_tick_clock msg.TickID ht
    refine ⟨?_, hmin, hsec, ?_⟩
    · rw [hclock]; unfold Millisecond; omega
    · have hminN : (50 * (msg.TickID : Int) / 60000 : Int)
          = ((50 * msg.TickID / 60000 : ℕ) : Int) := by push_cast; rfl
      have hsecN : (50 * (msg.TickID : Int) / 1000 % 60 : Int)
          = ((50 * msg.TickID / 1000 % 60 : ℕ) : Int) := by push_cast; rfl
      unfold GameModel.clockStr
      rw [hmin, hsec, hminN, hsecN,
        fmt02d_two_digits (50 * msg.TickID / 1000 % 60) (by omega)]
      by_cases h100 : 50 * msg.TickID / 60000 < 100
      · rw [fmt02d_two_digits _ h100, if_pos h100]
      · rw [fmt02d_numeral _ (by omega), if_neg h100]
  · intro hb
    exact ⟨_, update_delta_of_inBounds m now msg hb⟩

/-- C6 amended, at tick id 1 from a model whose clock showed something else:
the clock becomes 50 ms and is displayed as `00:00`. -/
theorem delta_clock_within_duration_range_witness :
    ((1 : Nat) : Int) * 50000000 < 2 ^ 63 ∧
    ∀ o, GameModel.Update { NewGameModel with gameClock := 987654321 } 0
        (.DeltaMsg ⟨1, (0, 0), []⟩) = some o →
      o.model.gameClock = 50 * Millisecond ∧ o.model.minutes = 0 ∧ o.model.seconds = 0 ∧
        o.model.clockStr = "00:00" :=
  ⟨by decide, fun o ho =>
    have h := (delta_clock_within_duration_range
      { NewGameModel with gameClock := 987654321 } 0 ⟨1, (0, 0), []⟩ (by decide)).1 o ho
    ⟨h.1.trans (by decide), h.2.1.trans (by decide), h.2.2.1.trans (by decide),
      h.2.2.2.trans (by decide)⟩⟩

/-- C7. For every Snapshot (board `B`, points, health) and every Delta message
with an empty delta list, handling the Snapshot and then the Delta leaves the
replica board equal to `B` and the health equal to the Snapshot's health. -/
theorem snapshot_then_empty_delta (m : GameModel) (now1 now2 : Int) (snap : BoardMsg)
    (tick : Nat) (points : Int × Int) :
    ∃ o1 o2, m.Update now1 (.BoardMsg snap) = some o1 ∧
      o1.model.Update now2 (.DeltaMsg ⟨tick, points, []⟩) = some o2 ∧
      o2.model.currentBoard = snap.Board ∧ o2.model.health = snap.Health :=
  ⟨_, _, rfl, rfl, rfl, rfl⟩

end Client

namespace Client

/-! ## The dash key and the local cooldown tick -/

/-- C10. For every model with a dash pending (`dashed = true`), handling a
space key press returns the input model unchanged, sends no action and
schedules no cooldown tick; when `dashed = false` the key press sends action
5, sets `dashed = true`, records the start time and schedules the tick. -/
theorem space_key_while_dashed (m : GameModel) (now : Int) (msg : KeyMsg)
    (hstr : msg.string = " ") (hc : msg.type ≠ KeyType.KeyCtrlC)
    (he : msg.type ≠ KeyType.KeyEsc) :
    (m.dashed = true → m.Update now (.KeyMsg msg) = some ⟨m, .nil, []⟩) ∧
    (m.dashed = false → m.Update now (.KeyMsg msg)
      = some ⟨{ m with dashed := true, dashStart := now }, .doTick, [5]⟩) := by
  constructor
  · intro hd
    simp [GameModel.Update, hstr, hc, he, hd]
  · intro hd
    simp [GameModel.Update, hstr, hc, he, hd]

/-- C10 at the space key of the terminal (`KeySpace`, text `" "`) on a model
with a dash pending since local time 100. -/
theorem space_key_while_dashed_witness :
    (KeyMsg.mk KeyType.KeySpace " ").string = " " ∧
    (KeyMsg.mk KeyType.KeySpace " ").type ≠ KeyType.KeyCtrlC ∧
    (KeyMsg.mk KeyType.KeySpace " ").type ≠ KeyType.KeyEsc ∧
    GameModel.Update { NewGameModel with dashed := true, dashStart := 100 } 777
        (.KeyMsg ⟨KeyType.KeySpace, " "⟩)
      = some ⟨{ NewGameModel with dashed := true, dashStart := 100 }, .nil, []⟩ :=
  ⟨rfl, by decide, by decide,
    (space_key_while_dashed { NewGameModel with dashed := true, dashStart := 100 } 777
      ⟨KeyType.KeySpace, " "⟩ rfl (by decide) (by decide)).1 rfl⟩

end Client

namespace Server

/-! ## A flag move replayed on the client replica -/

/-- C9. For every flag with team marker `t` at an in-bounds position
`(x1, y1)`, every in-bounds target `(x2, y2)` and every replica board,
replaying the deltas `Flag.Move(x2, y2, board)` emits through the client's
`ApplyDeltas` succeeds and gives a replica with `[y2][x2] = t`, with
`[y1][x1] = Empty` whenever `(x1, y1)` differs from `(x2, y2)`, and with every
other cell unchanged; so when the marker `t` is not `Empty` and the replica
showed it on no cell other than `[y1][x1]`, the replica afterwards shows it on
exactly the one cell `[y2][x2]`. -/
theorem move_replayed_on_replica (f : Flag) (x2 y2 : Int) (board : Board)
    (replica : Client.Board)
    (h1 : 0 ≤ f.PosX ∧ f.PosX < 51 ∧ 0 ≤ f.PosY ∧ f.PosY < 21)
    (h2 : 0 ≤ x2 ∧ x2 < 51 ∧ 0 ≤ y2 ∧ y2 < 21) :
    ∃ replica1, Client.ApplyDeltas
        (((f.Move x2 y2 board).2.Tracker.deltas.drop board.Tracker.deltas.length).map toDelta)
        replica = some replica1 ∧
      (∀ (r : Fin 21) (c : Fin 51), (r : Int) = y2 → (c : Int) = x2 →
        replica1 r c = f.TeamId) ∧
      (∀ (r : Fin 21) (c : Fin 51), (r : Int) = f.PosY → (c : Int) = f.PosX →
        ¬ (f.PosX = x2 ∧ f.PosY = y2) → replica1 r c = Empty) ∧
      (∀ (r : Fin 21) (c : Fin 51), ¬ ((r : Int) = y2 ∧ (c : Int) = x2) →
        ¬ ((r : Int) = f.PosY ∧ (c : Int) = f.PosX) → replica1 r c = replica r c) ∧
      (f.TeamId ≠ Empty →
        (∀ (r : Fin 21) (c : Fin 51), replica r c = f.TeamId →
          (r : Int) = f.PosY ∧ (c : Int) = f.PosX) →
        ∀ (r : Fin 21) (c : Fin 51),
          replica1 r c = f.TeamId ↔ ((r : Int) = y2 ∧ (c : Int) = x2)) := by
  have hem : ((f.Move x2 y2 board).2.Tracker.deltas.drop board.Tracker.deltas.length).map toDelta
      = [⟨f.PosX, f.PosY, Empty⟩, ⟨x2, y2, f.TeamId⟩] := by
    simp [Flag.Move, DeltaTracker.SaveDelta, toDelta]
  rw [hem]
  have hb : ∀ d ∈ [(⟨f.PosX, f.PosY, Empty⟩ : Client.Delta), ⟨x2, y2, f.TeamId⟩],
      d.InBounds := by
    intro d hd
    simp only [List.mem_cons, List.mem_singleton, List.not_mem_nil, or_false] at hd
    rcases hd with rfl | rfl
    · exact h1
    · exact h2
  have hnew : ∀ (r : Fin 21) (c : Fin 51), (r : Int) = y2 → (c : Int) = x2 →
      Client.replay replica [⟨f.PosX, f.PosY, Empty⟩, ⟨x2, y2, f.TeamId⟩] r c = f.TeamId := by
    intro r c hr hc
    simp [Client.replay, Client.writeOne, Client.Delta.Targets, hr, hc]
  have hold : ∀ (r : Fin 21) (c : Fin 51), (r : Int) = f.PosY → (c : Int) = f.PosX →
      ¬ (f.PosX = x2 ∧ f.PosY = y2) →
      Client.replay replica [⟨f.PosX, f.PosY, Empty⟩, ⟨x2, y2, f.TeamId⟩] r c = Empty := by
    intro r c hr hc hne
    have : ¬ (y2 = f.PosY ∧ x2 = f.PosX) := fun h => hne ⟨h.2.symm, h.1.symm⟩
    simp [Client.replay, Client.writeOne, Client.Delta.Targets, hr, hc, this]
  have hrest : ∀ (r : Fin 21) (c : Fin 51), ¬ ((r : Int) = y2 ∧ (c : Int) = x2) →
      ¬ ((r : Int) = f.PosY ∧ (c : Int) = f.PosX) →
      Client.replay replica [⟨f.PosX, f.PosY, Empty⟩, ⟨x2, y2, f.TeamId⟩] r c
        = replica r c := by
    intro r c hn2 hn1
    have a2 : ¬ (y2 = (r : Int) ∧ x2 = (c : Int)) := fun h => hn2 ⟨h.1.symm, h.2.symm⟩
    have a1 : ¬ (f.PosY = (r : Int) ∧ f.PosX = (c : Int)) :=
      fun h => hn1 ⟨h.1.symm, h.2.symm⟩
    simp [Client.replay, Client.writeOne, Client.Delta.Targets, a1, a2]
  refine ⟨_, Client.applyDeltas_eq_replay _ replica hb, hnew, hold, hrest, ?_⟩
  intro hteam honly r c
  constructor
  · intro hval
    by_contra hn2
    by_cases hat1 : (r : Int) = f.PosY ∧ (c : Int) = f.PosX
    · have hne : ¬ (f.PosX = x2 ∧ f.PosY = y2) :=
        fun h => hn2 ⟨hat1.1.trans h.2, hat1.2.trans h.1⟩
      rw [hold r c hat1.1 hat1.2 hne] at hval
      exact hteam hval.symm
    · rw [hrest r c hn2 hat1] at hval
      exact hat1 (honly r c hval)
  · intro h
    exact hnew r c h.1 h.2

/-- C9 at the specification's case: the Team1 flag (marker 4) moves from
`(5, 5)` to row 5, column 6 on an all-Empty replica; the emitted deltas are
`(5, 5, 1)` and `(6, 5, 4)`, and the replica then has `[5][5] = 1` (Empty) and
`[5][6] = 4`. -/
theorem move_replayed_on_replica_witness :
    ((0 : Int) ≤ 5 ∧ (5 : Int) < 51 ∧ (0 : Int) ≤ 5 ∧ (5 : Int) < 21) ∧
    ((0 : Int) ≤ 6 ∧ (6 : Int) < 51 ∧ (0 : Int) ≤ 5 ∧ (5 : Int) < 21) ∧
    ∃ replica1, Client.ApplyDeltas [⟨5, 5, 1⟩, ⟨6, 5, 4⟩] (fun _ _ => 1) = some replica1 ∧
      replica1 5 5 = 1 ∧ replica1 5 6 = 4 ∧ replica1 6 5 = 1 :=
  ⟨by decide, by decide,
    match move_replayed_on_replica ⟨4, 5, 5, 5, 5, false⟩ 6 5 ⟨⟨[]⟩⟩ (fun _ _ => 1)
      (by decide) (by decide) with
    | ⟨replica1, hr, hnew, hold, hrest, _⟩ =>
      ⟨replica1, hr, hold 5 5 rfl rfl (by decide), hnew 5 6 rfl rfl,
        hrest 6 5 (by decide) (by decide)⟩⟩

end Server
